import Mathlib

/-!
# Verification of the tester-army GitHub action core

Shallow embedding of the two core components of the repository:

* the Remote Test Client (`src/tester-army.ts`): `runCITest`, `executeRequest`,
  `handleErrorResponse`, `isServerError`, with the retry/backoff loop made
  explicit over a trace of per-attempt network outcomes;
* the Deployment Classifier (`src/deployment.ts`): `extractDeploymentInfo`,
  `parseUrl`, `isVercelUrl`, over a model of the duck-typed webhook payload.

JavaScript platform builtins used by the code (`Number.parseInt`, the WHATWG
`URL` constructor and its serializer, string lowercasing) are modelled
explicitly; the models are restricted to ASCII and to the URL constructs the
code exercises (scheme, authority with optional port, path, query, fragment;
userinfo is dropped, IDNA/percent-encoding/input-whitespace-stripping and
dot-segment normalization are not modelled).
-/

set_option maxRecDepth 8000

namespace TesterArmy

/-- Model of JavaScript `Number.parseInt(s, 10)`: skip leading whitespace,
optional sign, then the longest run of decimal digits; `none` models `NaN`
(no digits).  The JavaScript float overflow of astronomically long digit
strings to `Infinity` is outside the model. -/
def jsParseInt (s : String) : Option Int :=
  let cs := s.toList.dropWhile (fun c => c = ' ' ∨ c = '\t' ∨ c = '\n' ∨ c = '\r')
  let signAndDigits : Bool × List Char :=
    match cs with
    | '-' :: rest => (true, rest)
    | '+' :: rest => (false, rest)
    | rest => (false, rest)
  let ds := signAndDigits.2.takeWhile Char.isDigit
  if ds.isEmpty then none
  else
    let n : Nat := ds.foldl (fun acc c => acc * 10 + (c.toNat - 48)) 0
    some (if signAndDigits.1 then -(n : Int) else (n : Int))

/-- The success body: the client parses the response JSON and returns it
without inspecting any field (`(await response.json()) as CITestResponse`),
so the model keeps the body abstract. -/
structure CITestResponse where
  raw : String
deriving DecidableEq, Repr

/-- The typed error classes of `src/types.ts` (`BadRequestError`,
`UnauthorizedError`, `RateLimitError`, `TimeoutError`, `ServerError`) plus
`generic` for a plain `Error` (the non-5xx default branch of
`handleErrorResponse` and transport-level failures). -/
inductive ApiError where
  | badRequest (message : String)
  | unauthorized (message : String)
  | rateLimit (message : String) (retryAfter : Option Int)
  | timeout (message : String)
  | serverError (message : String) (status : Nat)
  | generic (message : String)
deriving DecidableEq, Repr

/-- The `name` property set by each error class constructor in `src/types.ts`. -/
def ApiError.name : ApiError → String
  | .badRequest _ => "BadRequestError"
  | .unauthorized _ => "UnauthorizedError"
  | .rateLimit _ _ => "RateLimitError"
  | .timeout _ => "TimeoutError"
  | .serverError _ _ => "ServerError"
  | .generic _ => "Error"

/-- The `statusCode` read by `isServerError` with default
`(error.statusCode ?? 0)`: the fixed codes of the `TesterArmyAPIError`
subclasses (`BadRequestError` 400, `UnauthorizedError` 401, `RateLimitError`
429, `TimeoutError` 504), the carried status for `ServerError`, and 0 for a
plain `Error`, which has no `statusCode` property. -/
def ApiError.statusCode : ApiError → Nat
  | .badRequest _ => 400
  | .unauthorized _ => 401
  | .rateLimit _ _ => 429
  | .timeout _ => 504
  | .serverError _ s => s
  | .generic _ => 0

/-- `src/tester-army.ts` line 12. -/
def MAX_RETRIES : Nat := 2

/-- `src/tester-army.ts` line 13 (milliseconds). -/
def INITIAL_RETRY_DELAY : Nat := 1000

/-- `src/tester-army.ts` lines 136-144: the `Retry-After` header is read with
`headers.get` (`none` models a missing header, i.e. `null`), guarded by JS
truthiness (`retryAfterHeader ? Number.parseInt(retryAfterHeader, 10) :
undefined`, so a missing or empty header yields `undefined`), and the parse
result is kept only when `Number.isFinite` holds (`NaN` from a failed parse is
dropped). -/
def parseRetryAfter (header : Option String) : Option Int :=
  match header with
  | none => none
  | some s => if s = "" then none else jsParseInt s

/-- `src/tester-army.ts` lines 119-154, `handleErrorResponse`.
`bodyMessage` models `errorBody?.message` (`none` when the body is not JSON
or carries no message), `statusText` models `response.statusText`; the
message is `errorBody?.message ?? response.statusText ?? 'Unknown error'`. -/
def handleErrorResponse (status : Nat) (bodyMessage statusText retryAfterHeader : Option String) :
    ApiError :=
  let message := bodyMessage.getD (statusText.getD "Unknown error")
  match status with
  | 400 => .badRequest message
  | 401 => .unauthorized message
  | 429 => .rateLimit message (parseRetryAfter retryAfterHeader)
  | 504 => .timeout message
  | s =>
    if s ≥ 500 then .serverError message s
    else .generic s!"Tester Army API error ({s}): {message}"

/-- `src/tester-army.ts` lines 159-164, `isServerError`:
`error.name === 'ServerError' || ((error.statusCode) ?? 0) >= 500`. -/
def isServerError (e : ApiError) : Bool :=
  e.name = "ServerError" || e.statusCode ≥ 500

/-- What the network does on one attempt, as observed by `executeRequest`:
* `ok r`: a response with `response.ok` true whose body parses as JSON `r`;
* `http status bodyMessage statusText retryAfter`: a response with
  `response.ok` false (status outside 200-299);
* `aborted`: the local per-attempt deadline fired first (`AbortError`);
* `failure msg`: any other thrown `Error` (network failure, JSON parse
  failure of a success body), which carries no `statusCode`. -/
inductive AttemptOutcome where
  | ok (r : CITestResponse)
  | http (status : Nat) (bodyMessage statusText retryAfter : Option String)
  | aborted
  | failure (message : String)

/-- `src/tester-army.ts` lines 77-114, `executeRequest`: one HTTP attempt.
A non-ok response goes through `handleErrorResponse`; an `AbortError` from
the deadline timer becomes `TimeoutError('Request timed out after {t}ms')`;
any other thrown error is rethrown unchanged. -/
def executeRequest (timeoutMs : Nat) (o : AttemptOutcome) : Except ApiError CITestResponse :=
  match o with
  | .ok r => .ok r
  | .http status bodyMessage statusText retryAfter =>
      .error (handleErrorResponse status bodyMessage statusText retryAfter)
  | .aborted => .error (.timeout s!"Request timed out after {timeoutMs}ms")
  | .failure msg => .error (.generic msg)

instance {ε α : Type} [DecidableEq ε] [DecidableEq α] : DecidableEq (Except ε α) := fun x y =>
  match x, y with
  | .ok a, .ok b =>
      if h : a = b then .isTrue (by rw [h]) else .isFalse (fun hc => h (Except.ok.inj hc))
  | .ok _, .error _ => .isFalse (fun hc => Except.noConfusion hc)
  | .error _, .ok _ => .isFalse (fun hc => Except.noConfusion hc)
  | .error e, .error f =>
      if h : e = f then .isTrue (by rw [h]) else .isFalse (fun hc => h (Except.error.inj hc))

/-- Observable outcome of one `runCITest` call: the returned value or thrown
error, the number of HTTP attempts made, and the backoff sleeps performed
(in order, in milliseconds). -/
structure RunTrace where
  result : Except ApiError CITestResponse
  attempts : Nat
  sleeps : List Nat
deriving DecidableEq, Repr

/-- `src/tester-army.ts` lines 43-72, the retry loop of `runCITest`:
`for (attempt = 0; attempt <= MAX_RETRIES; attempt++)` tries
`executeRequest`; on an error that `isServerError` accepts while
`attempt < MAX_RETRIES` it sleeps `INITIAL_RETRY_DELAY * 2 ^ attempt` and
continues, otherwise it rethrows the error.  The loop always returns or
throws from within its body (a retry is only taken when another iteration
remains), so the post-loop `throw lastError ?? ...` at line 71 is
unreachable and has no counterpart here. -/
def runCITestLoop (timeoutMs : Nat) (outcomes : Nat → AttemptOutcome)
    (attempt : Nat) (sleeps : List Nat) : RunTrace :=
  match executeRequest timeoutMs (outcomes attempt) with
  | .ok r => ⟨.ok r, attempt + 1, sleeps⟩
  | .error e =>
    if h : isServerError e = true ∧ attempt < MAX_RETRIES then
      runCITestLoop timeoutMs outcomes (attempt + 1)
        (sleeps ++ [INITIAL_RETRY_DELAY * 2 ^ attempt])
    else ⟨.error e, attempt + 1, sleeps⟩
termination_by MAX_RETRIES - attempt
decreasing_by simp_wf; omega

/-- `src/tester-army.ts` lines 43-72, `runCITest`, over a trace assigning to
each 0-indexed attempt the network's behaviour on it. -/
def runCITest (timeoutMs : Nat) (outcomes : Nat → AttemptOutcome) : RunTrace :=
  runCITestLoop timeoutMs outcomes 0 []

end TesterArmy

/-- ASCII model of JavaScript string lowercasing (`String.prototype.toLowerCase`,
also used for the `i` regex flag): map `A`-`Z` to `a`-`z`, characterwise. -/
def jsCharToLower (c : Char) : Char :=
  match c with
  | 'A' => 'a' | 'B' => 'b' | 'C' => 'c' | 'D' => 'd' | 'E' => 'e' | 'F' => 'f'
  | 'G' => 'g' | 'H' => 'h' | 'I' => 'i' | 'J' => 'j' | 'K' => 'k' | 'L' => 'l'
  | 'M' => 'm' | 'N' => 'n' | 'O' => 'o' | 'P' => 'p' | 'Q' => 'q' | 'R' => 'r'
  | 'S' => 's' | 'T' => 't' | 'U' => 'u' | 'V' => 'v' | 'W' => 'w' | 'X' => 'x'
  | 'Y' => 'y' | 'Z' => 'z' | c => c

/-- Lowercase a string characterwise (ASCII model of `toLowerCase`). -/
def jsToLower (s : String) : String := String.mk (s.data.map jsCharToLower)

/-- `s` ends with `suf` (model of an anchored regex suffix match). -/
def jsEndsWith (s suf : String) : Bool := suf.data.isSuffixOf s.data

namespace JsUrl

/-- Scheme code points after the first: ASCII alphanumeric, `+`, `-`, `.`. -/
def isSchemeChar (c : Char) : Bool := c.isAlphanum || c = '+' || c = '-' || c = '.'

/-- Scan the remainder of a scheme up to the `:`. -/
def schemeGo (acc : List Char) : List Char → Option (List Char × List Char)
  | [] => none
  | ':' :: rest => some (acc.reverse, rest)
  | c :: rest => if isSchemeChar c then schemeGo (c :: acc) rest else none

/-- Split `scheme:rest`; the scheme must start with an ASCII letter.  Without
a scheme the constructor throws (modelled `none`). -/
def splitScheme : List Char → Option (List Char × List Char)
  | [] => none
  | c :: cs => if c.isAlpha then schemeGo [c] cs else none

/-- The WHATWG special schemes (the ones parsed with an authority). -/
def SPECIAL_SCHEMES : List String := ["http", "https", "ws", "wss", "ftp", "file"]

/-- Default ports of the special schemes; a default port serializes as none. -/
def defaultPort : String → Option Nat
  | "http" => some 80
  | "https" => some 443
  | "ws" => some 80
  | "wss" => some 443
  | "ftp" => some 21
  | _ => none

def isSlash (c : Char) : Bool := c = '/' || c = '\\'

def isAuthorityEnd (c : Char) : Bool := isSlash c || c = '?' || c = '#'

/-- Drop the userinfo: keep what follows the last `@` (the whole list when
there is no `@`).  The model discards userinfo instead of serializing it. -/
def afterLastAt (cs : List Char) : List Char :=
  (cs.reverse.takeWhile (fun c => c ≠ '@')).reverse

/-- Decimal value of a digit run (most significant first). -/
def charsToNat (cs : List Char) : Nat := cs.foldl (fun a c => a * 10 + (c.toNat - 48)) 0

/-- Decimal digits of a natural number, most significant first. -/
def natToChars (n : Nat) : List Char :=
  if n = 0 then ['0'] else (Nat.digits 10 n).reverse.map (fun d => Char.ofNat (48 + d))

/-- A parsed WHATWG URL, components as the serializer uses them: `scheme` and
`host` lowercased, `port` absent when defaulted, `path` either empty or
starting with `/`, `query` without the `?`, `fragment` without the `#`. -/
structure URL where
  scheme : String
  host : String
  port : Option Nat
  path : String
  query : Option String
  fragment : Option String
deriving DecidableEq, Repr

/-- Parse the `:port` part of an authority.  Outer `none` is a parse failure
(non-digit or above 65535); `some none` is an absent or empty or default
port. -/
def parsePort (scheme : String) : List Char → Option (Option Nat)
  | [] => some none
  | ':' :: ds =>
    if ds.isEmpty then some none
    else if ds.all Char.isDigit then
      let p := charsToNat ds
      if p > 65535 then none
      else if defaultPort scheme = some p then some none
      else some (some p)
    else none
  | _ :: _ => none

/-- Split path, query and fragment: the path runs to the first `?` or `#`,
the query from `?` to the first `#`, the fragment after the first `#`. -/
def parsePQF (cs : List Char) : List Char × Option (List Char) × Option (List Char) :=
  let path := cs.takeWhile (fun c => c ≠ '?' && c ≠ '#')
  let rest := cs.dropWhile (fun c => c ≠ '?' && c ≠ '#')
  match rest with
  | '?' :: r2 =>
      (path, some (r2.takeWhile (fun c => c ≠ '#')),
        match r2.dropWhile (fun c => c ≠ '#') with
        | '#' :: f => (some f : Option (List Char))
        | _ => none)
  | '#' :: f => (path, none, some f)
  | _ => (path, none, none)

/-- The special-scheme stage of the `new URL` model: any run of slashes
after the `:` is skipped, the authority runs to the first slash, `?` or `#`,
userinfo before the last `@` is dropped, the host (required nonempty,
`[`/`]` rejected) is lowercased, the port is validated, and backslashes in
the path serialize as slashes. -/
def parseSpecialRest (scheme : String) (afterScheme : List Char) : Option URL :=
  let rest := afterScheme.dropWhile isSlash
  let authority := rest.takeWhile (fun c => !isAuthorityEnd c)
  let afterAuth := rest.dropWhile (fun c => !isAuthorityEnd c)
  let hp := afterLastAt authority
  let hostChars := hp.takeWhile (fun c => c ≠ ':')
  let portChars := hp.dropWhile (fun c => c ≠ ':')
  if hostChars.isEmpty then none
  else if hostChars.any (fun c => c = '[' || c = ']') then none
  else
    match parsePort scheme portChars with
    | none => none
    | some port =>
      let pqf := parsePQF afterAuth
      some {
        scheme := scheme
        host := String.mk (hostChars.map jsCharToLower)
        port := port
        path := String.mk (pqf.1.map (fun c => if c = '\\' then '/' else c))
        query := pqf.2.1.map String.mk
        fragment := pqf.2.2.map String.mk }

/-- Model of `new URL(s)` (throw modelled as `none`), restricted as described
in the module header.  A special scheme parses an authority via
`parseSpecialRest`; a non-special scheme keeps an opaque path (such URLs
only ever meet the scheme test, which rejects them). -/
def jsNewURL (s : String) : Option URL :=
  match splitScheme s.toList with
  | none => none
  | some (schemeChars, afterScheme) =>
    let scheme := String.mk (schemeChars.map jsCharToLower)
    if SPECIAL_SCHEMES.contains scheme then
      parseSpecialRest scheme afterScheme
    else
      some { scheme := scheme, host := "", port := none,
             path := String.mk afterScheme, query := none, fragment := none }

/-- Serializer segment for the port (empty when absent or default). -/
def portSegment : Option Nat → String
  | some p => ":" ++ String.mk (natToChars p)
  | none => ""

/-- Serializer segment for the path (an empty path serializes as `/`). -/
def pathSegment (path : String) : String := if path = "" then "/" else path

/-- Serializer segment for the query (prefixed by `?` when present). -/
def querySegment : Option String → String
  | some q => "?" ++ q
  | none => ""

/-- Serializer segment for the fragment (prefixed by `#` when present). -/
def fragmentSegment : Option String → String
  | some f => "#" ++ f
  | none => ""

/-- Model of the WHATWG serializer (`url.toString()` / `url.href`). -/
def URL.serialize (u : URL) : String :=
  if SPECIAL_SCHEMES.contains u.scheme then
    u.scheme ++ "://" ++ u.host ++ portSegment u.port ++ pathSegment u.path
      ++ querySegment u.query ++ fragmentSegment u.fragment
  else
    u.scheme ++ ":" ++ u.path

end JsUrl

namespace Deployment

/-- A JavaScript value sitting in a duck-typed webhook payload field:
a string, or one of the non-string shapes the code's `typeof`/truthiness
checks distinguish. -/
inductive JsVal where
  | vstr (s : String)
  | vnum (n : Int)
  | vbool (b : Bool)
  | vnull
deriving DecidableEq, Repr

/-- `src/deployment.ts` lines 21-27, `DeploymentStatusPayload`: every field
optional (`none` = absent or `undefined`) and of unchecked type. -/
structure DeploymentStatusPayload where
  state : Option JsVal := none
  target_url : Option JsVal := none
  environment_url : Option JsVal := none
  environment : Option JsVal := none
deriving DecidableEq, Repr

/-- The nested `payload.deployment` object (`{ sha?: string }`). -/
structure DeploymentPayload where
  sha : Option JsVal := none
deriving DecidableEq, Repr

/-- The GitHub Actions context as read by `extractDeploymentInfo`:
`eventName`, the top-level `sha`, and the payload's `deployment_status` and
`deployment` objects (`none` models an absent — or falsy — object, matching
the `!payload.deployment_status` and `payload.deployment as ... | undefined`
accesses). -/
structure GithubContext where
  eventName : String
  sha : String
  deployment_status : Option DeploymentStatusPayload := none
  deployment : Option DeploymentPayload := none
deriving DecidableEq, Repr

/-- `src/deployment.ts` lines 7-16, `DeploymentInfo`.  The TypeScript
interface types `environment` as `string`, but the code stores the raw
`deploymentStatus.environment ?? 'unknown'` value there, which need not be
a string; the model keeps the runtime value. -/
structure DeploymentInfo where
  url : String
  environment : JsVal
  sha : String
  isVercel : Bool
deriving DecidableEq, Repr

/-- `src/deployment.ts` lines 32-37: the hostname suffixes of
`VERCEL_URL_PATTERNS` (each regex is an anchored, case-insensitive suffix
match). -/
def VERCEL_SUFFIXES : List String := [".vercel.app", ".vercel.dev", ".now.sh", ".vercel.sh"]

/-- `src/deployment.ts` lines 63-65, `isVercelUrl`: some pattern matches the
parsed URL's hostname (the `i` flag modelled by lowercasing). -/
def isVercelUrl (u : JsUrl.URL) : Bool :=
  VERCEL_SUFFIXES.any (fun suf => jsEndsWith (jsToLower u.host) suf)

/-- `src/deployment.ts` lines 45-55, `parseUrl`: `new URL(url)` (failure
gives `null`), then reject a protocol other than `http:`/`https:`. -/
def parseUrl (url : String) : Option JsUrl.URL :=
  match JsUrl.jsNewURL url with
  | none => none
  | some parsed =>
    if parsed.scheme ≠ "http" ∧ parsed.scheme ≠ "https" then none
    else some parsed

/-- `src/deployment.ts` lines 73-76, `isVercelDeployment`. -/
def isVercelDeployment (url : String) : Bool :=
  match parseUrl url with
  | none => false
  | some p => isVercelUrl p

/-- Lines 104-105: `typeof rawState === 'string' ? rawState.toLowerCase() :
undefined`. -/
def stateOf (ds : DeploymentStatusPayload) : Option String :=
  match ds.state with
  | some (.vstr s) => some (jsToLower s)
  | _ => none

/-- Line 112: `deploymentStatus.environment ?? 'unknown'` (the `??` fires on
an absent, `undefined` or `null` field). -/
def environmentOf (ds : DeploymentStatusPayload) : JsVal :=
  match ds.environment with
  | none => .vstr "unknown"
  | some .vnull => .vstr "unknown"
  | some v => v

/-- Line 113: `typeof environment === 'string' ? environment.toLowerCase() :
'unknown'`. -/
def environmentLowerOf (ds : DeploymentStatusPayload) : String :=
  match environmentOf ds with
  | .vstr s => jsToLower s
  | _ => "unknown"

/-- Lines 121-124: `typeof deploymentStatus.environment_url === 'string' ?
deploymentStatus.environment_url : deploymentStatus.target_url`. -/
def candidateUrlOf (ds : DeploymentStatusPayload) : Option JsVal :=
  match ds.environment_url with
  | some (.vstr s) => some (.vstr s)
  | _ => ds.target_url

/-- Lines 139-147: `deployment?.sha && typeof deployment.sha === 'string'`
(a JS truthiness test, so an empty-string `sha` also falls back), else
`context.sha`. -/
def shaOf (context : GithubContext) : String :=
  match context.deployment with
  | some d =>
    match d.sha with
    | some (.vstr s) => if s = "" then context.sha else s
    | _ => context.sha
  | none => context.sha

/-- `src/deployment.ts` lines 84-161, `extractDeploymentInfo`, stepping
through the code's checks in order.  The candidate URL is rejected when it
is not a string or is falsy (`!candidateUrl || typeof candidateUrl !==
'string'`), and the returned `url` is `parsedUrl.toString()`. -/
def extractDeploymentInfo (context : GithubContext) : Option DeploymentInfo :=
  if context.eventName ≠ "deployment_status" then none
  else
    match context.deployment_status with
    | none => none
    | some deploymentStatus =>
      if stateOf deploymentStatus ≠ some "success" then none
      else if environmentLowerOf deploymentStatus = "production" then none
      else
        match candidateUrlOf deploymentStatus with
        | some (.vstr u) =>
          if u = "" then none
          else
            match parseUrl u with
            | none => none
            | some parsedUrl =>
              some {
                url := parsedUrl.serialize
                environment := environmentOf deploymentStatus
                sha := shaOf context
                isVercel := isVercelUrl parsedUrl }
        | _ => none

/-- An otherwise-valid successful deployment context (right event name,
`state: "success"`), with the URL fields, environment, nested deployment sha
and top-level sha left as slots; used to instantiate the claims. -/
def mkCtx (envUrl targetUrl environment depSha : Option JsVal) (ctxSha : String) :
    GithubContext :=
  { eventName := "deployment_status"
    sha := ctxSha
    deployment_status := some ⟨some (.vstr "success"), targetUrl, envUrl, environment⟩
    deployment := some ⟨depSha⟩ }

end Deployment

namespace Deployment

/-- Shape of every accepted event: inverting `extractDeploymentInfo ctx = some
info` recovers the payload, the candidate URL string (nonempty, parsed by
`parseUrl`), and the components of `info`. -/
theorem extract_eq_some_inv (ctx : GithubContext) (info : DeploymentInfo)
    (h : extractDeploymentInfo ctx = some info) :
    ∃ ds u p, ctx.deployment_status = some ds ∧ candidateUrlOf ds = some (.vstr u) ∧ u ≠ "" ∧
      parseUrl u = some p ∧
      info = ⟨p.serialize, environmentOf ds, shaOf ctx, isVercelUrl p⟩ := by
  unfold extractDeploymentInfo at h
  split at h
  · exact absurd h (by simp)
  · split at h
    · exact absurd h (by simp)
    · split at h
      · exact absurd h (by simp)
      · split at h
        · exact absurd h (by simp)
        · split at h
          · split at h
            · exact absurd h (by simp)
            · split at h
              · exact absurd h (by simp)
              · rename_i hEvent xds ds hds hstate henv xcu s hcu hsne xp p hp
                exact ⟨ds, s, p, hds, hcu, hsne, hp, (Option.some.inj h).symm⟩
          · exact absurd h (by simp)

end Deployment

namespace JsUrl

theorem takeWhile_append_of_all {α : Type} (p : α → Bool) (l₁ l₂ : List α)
    (h : ∀ c ∈ l₁, p c = true) :
    (l₁ ++ l₂).takeWhile p = l₁ ++ l₂.takeWhile p := by
  induction l₁ with
  | nil => simp
  | cons c tl ih =>
    simp only [List.cons_append, List.takeWhile_cons, h c (by simp)]
    rw [ih (fun x hx => h x (by simp [hx]))]
    simp

theorem dropWhile_append_of_all {α : Type} (p : α → Bool) (l₁ l₂ : List α)
    (h : ∀ c ∈ l₁, p c = true) :
    (l₁ ++ l₂).dropWhile p = l₂.dropWhile p := by
  induction l₁ with
  | nil => simp
  | cons c tl ih =>
    simp only [List.cons_append, List.dropWhile_cons, h c (by simp)]
    exact ih (fun x hx => h x (by simp [hx]))

theorem mem_takeWhile_mem {α : Type} (p : α → Bool) (l : List α) (c : α)
    (h : c ∈ l.takeWhile p) : c ∈ l := by
  induction l with
  | nil => simp at h
  | cons x tl ih =>
    rw [List.takeWhile_cons] at h
    by_cases hx : p x = true
    · rw [if_pos hx] at h
      rcases List.mem_cons.mp h with h | h
      · simp [h]
      · simp [ih h]
    · rw [if_neg hx] at h
      simp at h

theorem afterLastAt_of_not_mem (l : List Char) (h : '@' ∉ l) : afterLastAt l = l := by
  unfold afterLastAt
  rw [List.takeWhile_eq_self_iff.mpr, List.reverse_reverse]
  intro x hx
  simp only [ne_eq, decide_eq_true_eq]
  rintro rfl
  exact h (List.mem_reverse.mp hx)

theorem natToChars_ne_nil (n : Nat) : natToChars n ≠ [] := by
  unfold natToChars
  by_cases h : n = 0
  · simp [h]
  · simp only [h, ite_false, ne_eq, List.map_eq_nil_iff, List.reverse_eq_nil_iff]
    exact Nat.digits_ne_nil_iff_ne_zero.mpr h

theorem natToChars_mem_facts (n : Nat) (c : Char) (h : c ∈ natToChars n) :
    c.isDigit = true ∧ isAuthorityEnd c = false ∧ c ≠ ':' ∧ c ≠ '@' := by
  unfold natToChars at h
  by_cases h0 : n = 0
  · simp [h0] at h
    subst h
    decide
  · simp only [h0, ite_false, List.mem_map, List.mem_reverse] at h
    obtain ⟨d, hd, rfl⟩ := h
    have hlt : d < 10 := Nat.digits_lt_base (by norm_num) hd
    interval_cases d <;> decide

theorem charsToNat_digit_run (ds : List Nat) (hds : ∀ d ∈ ds, d < 10) (a : Nat) :
    ((ds.reverse.map (fun d => Char.ofNat (48 + d))).foldl
        (fun acc c => acc * 10 + (c.toNat - 48)) a)
      = a * 10 ^ ds.length + Nat.ofDigits 10 ds := by
  induction ds generalizing a with
  | nil => simp
  | cons d tl ih =>
    have hd10 : d < 10 := hds d (by simp)
    have htl : ∀ x ∈ tl, x < 10 := fun x hx => hds x (by simp [hx])
    have hchar : (Char.ofNat (48 + d)).toNat - 48 = d := by
      interval_cases d <;> decide
    simp only [List.reverse_cons, List.map_append, List.map_cons, List.map_nil,
      List.foldl_append, List.foldl_cons, List.foldl_nil, ih htl]
    rw [hchar, Nat.ofDigits_cons, List.length_cons]
    ring

theorem charsToNat_natToChars (n : Nat) : charsToNat (natToChars n) = n := by
  unfold natToChars charsToNat
  by_cases h0 : n = 0
  · simp [h0]
  · simp only [h0, ite_false]
    have := charsToNat_digit_run (Nat.digits 10 n)
      (fun d hd => Nat.digits_lt_base (by norm_num) hd) 0
    rw [this, Nat.ofDigits_digits]
    simp

theorem isSlash_eq_false (c : Char) (h : isAuthorityEnd c = false) : isSlash c = false := by
  unfold isAuthorityEnd at h
  simp only [Bool.or_eq_false_iff] at h
  exact h.1.1

theorem parseSpecialRest_build (sch : String) (H P A : List Char)
    (hh : H ≠ [])
    (hH : ∀ c ∈ H, isAuthorityEnd c = false ∧ c ≠ ':' ∧ c ≠ '@' ∧ c ≠ '[' ∧ c ≠ ']')
    (hP : P = [] ∨ ∃ q, P = ':' :: natToChars q ∧ q ≤ 65535 ∧ defaultPort sch ≠ some q)
    (hA : ∃ tl, A = '/' :: tl) :
    ∃ u', parseSpecialRest sch ('/' :: '/' :: (H ++ P ++ A)) = some u' ∧ u'.scheme = sch := by
  obtain ⟨atl, rfl⟩ := hA
  have hHp : ∀ c ∈ H, (!isAuthorityEnd c) = true := by
    intro c hc; rw [(hH c hc).1]; rfl
  have hHne : ∀ c ∈ H, decide (c ≠ ':') = true := by
    intro c hc; simpa using (hH c hc).2.1
  have hHat : '@' ∉ H := fun hmem => ((hH _ hmem).2.2.1) rfl
  unfold parseSpecialRest
  simp only []
  have h1 : (('/' :: '/' :: (H ++ P ++ '/' :: atl)).dropWhile isSlash)
      = H ++ P ++ '/' :: atl := by
    rw [List.dropWhile_cons, if_pos (by decide), List.dropWhile_cons, if_pos (by decide)]
    cases H with
    | nil => exact absurd rfl hh
    | cons hc htl =>
      rw [List.cons_append, List.cons_append, List.dropWhile_cons,
        if_neg (by simp [isSlash_eq_false hc (hH hc (by simp)).1])]
  rw [h1]
  have hEmpty : H.isEmpty = false := by
    cases H with
    | nil => exact absurd rfl hh
    | cons a b => rfl
  have hany : H.any (fun c => c = '[' || c = ']') = false := by
    rw [List.any_eq_false]
    intro c hc
    simp only [Bool.or_eq_true, decide_eq_true_eq, not_or]
    exact ⟨(hH c hc).2.2.2.1, (hH c hc).2.2.2.2⟩
  rcases hP with rfl | ⟨q, rfl, hq65, hqdef⟩
  · simp only [List.append_nil]
    have hauth : (H ++ '/' :: atl).takeWhile (fun c => !isAuthorityEnd c) = H := by
      rw [takeWhile_append_of_all _ _ _ hHp, List.takeWhile_cons, if_neg (by decide)]
      simp
    have hafter : (H ++ '/' :: atl).dropWhile (fun c => !isAuthorityEnd c) = '/' :: atl := by
      rw [dropWhile_append_of_all _ _ _ hHp, List.dropWhile_cons, if_neg (by decide)]
    rw [hauth, hafter, afterLastAt_of_not_mem H hHat,
      List.takeWhile_eq_self_iff.mpr hHne,
      List.dropWhile_eq_nil_iff.mpr hHne]
    rw [if_neg (by simp [hEmpty]), if_neg (by simp [hany])]
    exact ⟨_, rfl, rfl⟩
  · have hPall : ∀ c ∈ ':' :: natToChars q, (!isAuthorityEnd c) = true := by
      intro c hc
      rcases List.mem_cons.mp hc with rfl | hc
      · decide
      · rw [(natToChars_mem_facts q c hc).2.1]; rfl
    have hHPall : ∀ c ∈ H ++ ':' :: natToChars q, (!isAuthorityEnd c) = true := by
      intro c hc
      rcases List.mem_append.mp hc with hc | hc
      · exact hHp c hc
      · exact hPall c hc
    have hauth : ((H ++ ':' :: natToChars q) ++ '/' :: atl).takeWhile
        (fun c => !isAuthorityEnd c) = H ++ ':' :: natToChars q := by
      rw [takeWhile_append_of_all _ _ _ hHPall, List.takeWhile_cons, if_neg (by decide)]
      simp
    have hafter : ((H ++ ':' :: natToChars q) ++ '/' :: atl).dropWhile
        (fun c => !isAuthorityEnd c) = '/' :: atl := by
      rw [dropWhile_append_of_all _ _ _ hHPall, List.dropWhile_cons, if_neg (by decide)]
    have hat2 : '@' ∉ H ++ ':' :: natToChars q := by
      intro hmem
      rcases List.mem_append.mp hmem with hc | hc
      · exact hHat hc
      · rcases List.mem_cons.mp hc with h' | hc
        · exact absurd h'.symm (by decide)
        · exact (natToChars_mem_facts q _ hc).2.2.2 rfl
    have hhc : (H ++ ':' :: natToChars q).takeWhile (fun c => decide (c ≠ ':')) = H := by
      rw [takeWhile_append_of_all _ _ _ hHne, List.takeWhile_cons, if_neg (by decide)]
      simp
    have hpc : (H ++ ':' :: natToChars q).dropWhile (fun c => decide (c ≠ ':'))
        = ':' :: natToChars q := by
      rw [dropWhile_append_of_all _ _ _ hHne, List.dropWhile_cons, if_neg (by decide)]
    rw [hauth, hafter, afterLastAt_of_not_mem _ hat2, hhc, hpc]
    rw [if_neg (by simp [hEmpty]), if_neg (by simp [hany])]
    have hport : parsePort sch (':' :: natToChars q) = some (some q) := by
      simp only [parsePort]
      have hne : (natToChars q).isEmpty = false := by
        cases hD : natToChars q with
        | nil => exact absurd hD (natToChars_ne_nil q)
        | cons a b => rfl
      rw [if_neg (by simp [hne])]
      rw [if_pos (List.all_eq_true.mpr (fun c hc => (natToChars_mem_facts q c hc).1))]
      rw [charsToNat_natToChars]
      rw [if_neg (by omega), if_neg hqdef]
    rw [hport]
    exact ⟨_, rfl, rfl⟩

end JsUrl

namespace JsUrl

theorem dropWhile_head_or_nil {α : Type} (p : α → Bool) (l : List α) :
    l.dropWhile p = [] ∨ ∃ c tl, l.dropWhile p = c :: tl ∧ p c = false := by
  induction l with
  | nil => simp
  | cons x tl ih =>
    rw [List.dropWhile_cons]
    by_cases hx : p x = true
    · simpa [hx] using ih
    · simp only [hx, ite_false]
      exact Or.inr ⟨x, tl, rfl, by simpa using hx⟩

theorem mem_afterLastAt (l : List Char) (c : Char) (h : c ∈ afterLastAt l) :
    c ∈ l ∧ c ≠ '@' := by
  unfold afterLastAt at h
  rw [List.mem_reverse] at h
  refine ⟨List.mem_reverse.mp (mem_takeWhile_mem _ _ _ h), ?_⟩
  have := List.mem_takeWhile_imp h
  simpa using this

theorem jsCharToLower_preserve (c : Char)
    (h : isAuthorityEnd c = false ∧ c ≠ ':' ∧ c ≠ '@' ∧ c ≠ '[' ∧ c ≠ ']') :
    isAuthorityEnd (jsCharToLower c) = false ∧ jsCharToLower c ≠ ':' ∧
      jsCharToLower c ≠ '@' ∧ jsCharToLower c ≠ '[' ∧ jsCharToLower c ≠ ']' := by
  unfold jsCharToLower
  split
  all_goals first
    | exact h
    | decide

theorem parsePort_facts (sch : String) (l : List Char) (po : Option Nat)
    (h : parsePort sch l = some po) :
    ∀ q, po = some q → q ≤ 65535 ∧ defaultPort sch ≠ some q := by
  unfold parsePort at h
  simp only [] at h
  split at h
  · intro q hq; rw [← Option.some.inj h] at hq; simp at hq
  · split at h
    · intro q hq; rw [← Option.some.inj h] at hq; simp at hq
    · split at h
      · split at h
        · simp at h
        · split at h
          · intro q hq; rw [← Option.some.inj h] at hq; simp at hq
          · rename_i hgt hdef
            intro q hq
            rw [← Option.some.inj h] at hq
            have := Option.some.inj hq
            subst this
            exact ⟨by omega, hdef⟩
      · simp at h
  · simp at h

theorem parsePQF_fst (l : List Char) :
    (parsePQF l).1 = l.takeWhile (fun c => c ≠ '?' && c ≠ '#') := by
  unfold parsePQF
  simp only []
  split <;> rfl

theorem parsePQF_path_head (l : List Char)
    (hl : l = [] ∨ ∃ c tl, l = c :: tl ∧ isAuthorityEnd c = true) :
    (parsePQF l).1.map (fun c => if c = '\\' then '/' else c) = []
      ∨ ∃ tl, (parsePQF l).1.map (fun c => if c = '\\' then '/' else c) = '/' :: tl := by
  rw [parsePQF_fst]
  rcases hl with rfl | ⟨c, tl, rfl, hc⟩
  · left; rfl
  · have : ((c = '/' ∨ c = '\\') ∨ c = '?') ∨ c = '#' := by
      simpa [isAuthorityEnd, isSlash] using hc
    rcases this with ((rfl | rfl) | rfl) | rfl
    · right
      rw [List.takeWhile_cons, if_pos (by decide), List.map_cons]
      exact ⟨_, rfl⟩
    · right
      rw [List.takeWhile_cons, if_pos (by decide), List.map_cons]
      exact ⟨_, rfl⟩
    · left; rfl
    · left; rfl

theorem jsNewURL_facts (s : String) (u : URL) (h : jsNewURL s = some u)
    (hsp : SPECIAL_SCHEMES.contains u.scheme = true) :
    u.host.data ≠ []
    ∧ (∀ c ∈ u.host.data, isAuthorityEnd c = false ∧ c ≠ ':' ∧ c ≠ '@' ∧ c ≠ '[' ∧ c ≠ ']')
    ∧ (∀ q, u.port = some q → q ≤ 65535 ∧ defaultPort u.scheme ≠ some q)
    ∧ (u.path.data = [] ∨ ∃ tl, u.path.data = '/' :: tl) := by
  unfold jsNewURL at h
  simp only [] at h
  split at h
  · exact absurd h (by simp)
  rename_i sc asch hsplit
  split at h
  case isFalse hcont =>
    rw [← Option.some.inj h] at hsp
    simp only [] at hsp
    exact absurd hsp hcont
  case isTrue hcont =>
  unfold parseSpecialRest at h
  simp only [] at h
  split at h
  · exact absurd h (by simp)
  rename_i hne
  split at h
  · exact absurd h (by simp)
  rename_i hbr
  split at h
  · exact absurd h (by simp)
  rename_i port hport
  have hu := (Option.some.inj h).symm
  subst hu
  simp only []
  refine ⟨?_, ?_, ?_, ?_⟩
  · intro hmap
    rw [List.map_eq_nil_iff] at hmap
    rw [hmap] at hne
    exact hne rfl
  · intro c hc
    rw [List.mem_map] at hc
    obtain ⟨c₀, hc₀, rfl⟩ := hc
    have h1 : c₀ ≠ ':' := by
      have := List.mem_takeWhile_imp hc₀
      simpa using this
    have h2 := mem_afterLastAt _ c₀ (mem_takeWhile_mem _ _ _ hc₀)
    have h3 : isAuthorityEnd c₀ = false := by
      have := List.mem_takeWhile_imp h2.1
      simpa using this
    have h4 : c₀ ≠ '[' ∧ c₀ ≠ ']' := by
      rw [Bool.not_eq_true, List.any_eq_false] at hbr
      have := hbr c₀ hc₀
      simp at this
      exact this
    exact jsCharToLower_preserve c₀ ⟨h3, h1, h2.2, h4.1, h4.2⟩
  · exact parsePort_facts _ _ _ hport
  · exact parsePQF_path_head _ (by
      rcases dropWhile_head_or_nil (fun c => !isAuthorityEnd c)
          (asch.dropWhile isSlash) with hnil | ⟨c, tl, heq, hc⟩
      · exact Or.inl hnil
      · exact Or.inr ⟨c, tl, heq, by simpa using hc⟩)

end JsUrl

namespace JsUrl

theorem jsNewURL_http_red (t : String) :
    jsNewURL ("http" ++ ("://" ++ t)) = parseSpecialRest "http" ('/' :: '/' :: t.data) := rfl

theorem jsNewURL_https_red (t : String) :
    jsNewURL ("https" ++ ("://" ++ t)) = parseSpecialRest "https" ('/' :: '/' :: t.data) := rfl

theorem jsNewURL_serialize_some (u : URL)
    (hs : u.scheme = "http" ∨ u.scheme = "https")
    (hh : u.host.data ≠ [])
    (hH : ∀ c ∈ u.host.data, isAuthorityEnd c = false ∧ c ≠ ':' ∧ c ≠ '@' ∧ c ≠ '[' ∧ c ≠ ']')
    (hport : ∀ q, u.port = some q → q ≤ 65535 ∧ defaultPort u.scheme ≠ some q)
    (hpath : u.path.data = [] ∨ ∃ tl, u.path.data = '/' :: tl) :
    ∃ u', jsNewURL u.serialize = some u' ∧ u'.scheme = u.scheme := by
  obtain ⟨sch, host, port, path, query, frag⟩ := u
  simp only [] at hs hh hH hport hpath ⊢
  unfold URL.serialize
  simp only []
  have hP : (portSegment port).data = []
      ∨ ∃ q, (portSegment port).data = ':' :: natToChars q
          ∧ q ≤ 65535 ∧ defaultPort sch ≠ some q := by
    cases port with
    | none => exact Or.inl rfl
    | some q => exact Or.inr ⟨q, rfl, hport q rfl⟩
  have hA : ∃ tl, (pathSegment path).data
      ++ ((querySegment query).data ++ (fragmentSegment frag).data) = '/' :: tl := by
    unfold pathSegment
    by_cases hpe : path = ""
    · rw [if_pos hpe]
      exact ⟨_, rfl⟩
    · rw [if_neg hpe]
      rcases hpath with hnil | ⟨tl, htl⟩
      · exact absurd (by cases path with | mk d => cases hnil; rfl) hpe
      · rw [htl]
        exact ⟨_, rfl⟩
  rcases hs with rfl | rfl
  · rw [if_pos (by decide)]
    simp only [String.append_assoc]
    rw [jsNewURL_http_red]
    obtain ⟨u', hu', hsch⟩ := parseSpecialRest_build "http" host.data (portSegment port).data
      ((pathSegment path).data ++ ((querySegment query).data ++ (fragmentSegment frag).data))
      hh hH hP hA
    refine ⟨u', ?_, hsch⟩
    rw [← hu']
    congr 1
    simp [String.data_append, List.append_assoc]
  · rw [if_pos (by decide)]
    simp only [String.append_assoc]
    rw [jsNewURL_https_red]
    obtain ⟨u', hu', hsch⟩ := parseSpecialRest_build "https" host.data (portSegment port).data
      ((pathSegment path).data ++ ((querySegment query).data ++ (fragmentSegment frag).data))
      hh hH hP hA
    refine ⟨u', ?_, hsch⟩
    rw [← hu']
    congr 1
    simp [String.data_append, List.append_assoc]

end JsUrl

open TesterArmy

/-- C1: when the service answers the successive attempts with HTTP 500, then
503, then 200, `runCITest` returns the parsed success response after exactly
3 HTTP attempts, sleeping exactly 1000 ms before the second attempt and
2000 ms before the third (delay before 0-indexed retry `n` is
`1000 * 2 ^ n`, with no jitter), whatever the error bodies, status texts,
headers, timeout configuration and success body are. -/
theorem c1_retry_500_503_200 (t : Nat) (m0 m1 st0 st1 ra0 ra1 : Option String)
    (r : CITestResponse) :
    runCITest t (fun n => match n with
      | 0 => .http 500 m0 st0 ra0
      | 1 => .http 503 m1 st1 ra1
      | _ => .ok r)
      = ⟨.ok r, 3, [1000, 2000]⟩ := by
  simp [runCITest, runCITestLoop, executeRequest, handleErrorResponse, isServerError,
    ApiError.name, ApiError.statusCode, MAX_RETRIES, INITIAL_RETRY_DELAY]

/-- C2: when the service answers every attempt with HTTP 500, `runCITest`
makes exactly 3 HTTP attempts (never a 4th) and then fails with the
`ServerError` observed on the last attempt (its message is the one resolved
from attempt index 2), after backoff sleeps of 1000 ms and 2000 ms; no
generic retry-loop error is produced. -/
theorem c2_exhaustion_all_500 (t : Nat) (msgs sts ras : Nat → Option String) :
    runCITest t (fun n => .http 500 (msgs n) (sts n) (ras n))
      = ⟨.error (.serverError ((msgs 2).getD ((sts 2).getD "Unknown error")) 500),
         3, [1000, 2000]⟩ := by
  simp [runCITest, runCITestLoop, executeRequest, handleErrorResponse, isServerError,
    ApiError.name, ApiError.statusCode, MAX_RETRIES, INITIAL_RETRY_DELAY]

/-- C3: an HTTP 504 response and a locally exceeded per-attempt deadline both
fail the attempt with a `Timeout` error, and that `Timeout` error is
retryable exactly like other >=500 server errors: `isServerError` accepts it
(its `statusCode` is 504), so while attempts remain it triggers a backoff
sleep and another attempt, and it is surfaced to the caller only when the
retry budget is exhausted. -/
theorem c3_timeout_retryable (t : Nat) (m st ra : Option String) (r : CITestResponse) :
    executeRequest t (.http 504 m st ra)
        = .error (.timeout (m.getD (st.getD "Unknown error")))
      ∧ executeRequest t .aborted = .error (.timeout s!"Request timed out after {t}ms")
      ∧ (∀ msg : String, isServerError (.timeout msg) = true)
      ∧ runCITest t (fun n => match n with
          | 0 => .http 504 m st ra
          | _ => .ok r) = ⟨.ok r, 2, [1000]⟩
      ∧ runCITest t (fun _ => .aborted)
          = ⟨.error (.timeout s!"Request timed out after {t}ms"), 3, [1000, 2000]⟩ := by
  refine ⟨rfl, rfl, fun msg => rfl, ?_, ?_⟩ <;>
  simp [runCITest, runCITestLoop, executeRequest, handleErrorResponse, isServerError,
    ApiError.name, ApiError.statusCode, MAX_RETRIES, INITIAL_RETRY_DELAY]

/-- C4: a definitive client-error status makes `runCITest` fail after exactly
one HTTP attempt, with no retry and no backoff sleep: 400 yields
`BadRequestError`, 401 yields `UnauthorizedError`, and 429 yields
`RateLimitError` carrying `parseRetryAfter` of the `Retry-After` header —
which is the parsed integer when the header is present and parses as a
finite number (e.g. "60" gives 60), and nothing when the header is absent,
empty, or does not parse (e.g. "abc"). -/
theorem c4_client_errors_no_retry (t : Nat) (m st ra : Option String) :
    runCITest t (fun _ => .http 400 m st ra)
        = ⟨.error (.badRequest (m.getD (st.getD "Unknown error"))), 1, []⟩
      ∧ runCITest t (fun _ => .http 401 m st ra)
          = ⟨.error (.unauthorized (m.getD (st.getD "Unknown error"))), 1, []⟩
      ∧ runCITest t (fun _ => .http 429 m st ra)
          = ⟨.error (.rateLimit (m.getD (st.getD "Unknown error")) (parseRetryAfter ra)),
             1, []⟩
      ∧ parseRetryAfter (some "60") = some 60
      ∧ parseRetryAfter (some "abc") = none
      ∧ parseRetryAfter (some "") = none
      ∧ parseRetryAfter none = none := by
  refine ⟨?_, ?_, ?_, by decide, by decide, by decide, rfl⟩ <;>
  simp [runCITest, runCITestLoop, executeRequest, handleErrorResponse, isServerError,
    ApiError.name, ApiError.statusCode, MAX_RETRIES]

/-- C5: `extractDeploymentInfo` returns `null` whenever any rejection
condition holds: wrong event name; absent `deployment_status`; state
(lowercased) not `"success"` (including a missing or non-string state);
resolved environment name (lowercased) equal to `"production"` — regardless
of URL validity; no usable URL (candidate absent, not a string, or empty);
a usable URL on which `new URL` fails; or a parsed URL whose scheme is
neither `http` nor `https`. -/
theorem c5_rejection_conditions (ctx : Deployment.GithubContext)
    (h : ctx.eventName ≠ "deployment_status"
      ∨ ctx.deployment_status = none
      ∨ ∃ ds, ctx.deployment_status = some ds ∧
          (Deployment.stateOf ds ≠ some "success"
           ∨ Deployment.environmentLowerOf ds = "production"
           ∨ (∀ u : String, Deployment.candidateUrlOf ds = some (.vstr u) → u = "")
           ∨ (∃ u, Deployment.candidateUrlOf ds = some (.vstr u) ∧ JsUrl.jsNewURL u = none)
           ∨ (∃ u p, Deployment.candidateUrlOf ds = some (.vstr u) ∧ JsUrl.jsNewURL u = some p
               ∧ p.scheme ≠ "http" ∧ p.scheme ≠ "https"))) :
    Deployment.extractDeploymentInfo ctx = none := by
  unfold Deployment.extractDeploymentInfo
  rcases h with he | hn | ⟨ds, hds, hcond⟩
  · simp [he]
  · simp [hn]
  · rw [hds]
    by_cases he : ctx.eventName ≠ "deployment_status"
    · simp [he]
    simp only [he, ite_false]
    rcases hcond with h1 | h2 | h3 | ⟨u, hu, hp⟩ | ⟨u, p, hu, hp, hs1, hs2⟩
    · simp [h1]
    · simp [h2]
    · by_cases hst : Deployment.stateOf ds ≠ some "success"
      · simp [hst]
      simp only [hst, ite_false]
      by_cases henv : Deployment.environmentLowerOf ds = "production"
      · simp [henv]
      simp only [henv, ite_false]
      cases hc : Deployment.candidateUrlOf ds with
      | none => rfl
      | some v =>
        cases v with
        | vstr s => have := h3 s hc; simp [this]
        | vnum n => rfl
        | vbool b => rfl
        | vnull => rfl
    · by_cases hst : Deployment.stateOf ds ≠ some "success"
      · simp [hst]
      simp only [hst, ite_false]
      by_cases henv : Deployment.environmentLowerOf ds = "production"
      · simp [henv]
      simp only [henv, ite_false]
      rw [hu]
      by_cases hue : u = ""
      · simp [hue]
      simp only [hue, ite_false]
      unfold Deployment.parseUrl
      rw [hp]
    · by_cases hst : Deployment.stateOf ds ≠ some "success"
      · simp [hst]
      simp only [hst, ite_false]
      by_cases henv : Deployment.environmentLowerOf ds = "production"
      · simp [henv]
      simp only [henv, ite_false]
      rw [hu]
      by_cases hue : u = ""
      · simp [hue]
      simp only [hue, ite_false]
      unfold Deployment.parseUrl
      rw [hp]
      simp [hs1, hs2]

/-- Witness for C5 at a concrete rejected event (wrong event name). -/
theorem c5_rejection_conditions_witness :
    Deployment.extractDeploymentInfo { eventName := "push", sha := "s" } = none :=
  c5_rejection_conditions { eventName := "push", sha := "s" } (Or.inl (by decide))

/-- C7 counterexample: with `environment_url = "https://a.vercel.app"` and
`target_url = "https://b.vercel.app"` on an otherwise-valid event, the output
`url` is the re-serialized `"https://a.vercel.app/"` (trailing slash added by
`parsedUrl.toString()`), which is not the `environment_url` value itself, so
the claim's equality fails as stated. -/
theorem c7_counterexample :
    (Deployment.extractDeploymentInfo (Deployment.mkCtx (some (.vstr "https://a.vercel.app"))
        (some (.vstr "https://b.vercel.app")) (some (.vstr "Preview")) (some (.vstr "abc"))
        "top")).map Deployment.DeploymentInfo.url = some "https://a.vercel.app/"
      ∧ ("https://a.vercel.app/" : String) ≠ "https://a.vercel.app" :=
  ⟨by decide, by decide⟩

/-- C7 (amended): for every otherwise-valid successful non-production event
whose `environment_url` is present as a (nonempty, parseable) string, the
Classifier uses `environment_url` and ignores `target_url` (universally
quantified here), and the output `url` is the canonical re-serialization of
the `environment_url` value. -/
theorem c7_env_url_preference (eu : String) (tu : Option Deployment.JsVal) (p : JsUrl.URL)
    (h1 : eu ≠ "") (h2 : Deployment.parseUrl eu = some p) :
    Deployment.extractDeploymentInfo (Deployment.mkCtx (some (.vstr eu)) tu
        (some (.vstr "Preview")) (some (.vstr "abc")) "top")
      = some ⟨p.serialize, .vstr "Preview", "abc", Deployment.isVercelUrl p⟩ := by
  unfold Deployment.extractDeploymentInfo Deployment.mkCtx
  rw [if_neg (by simp)]
  simp only [Deployment.stateOf, Deployment.environmentOf, Deployment.environmentLowerOf,
    Deployment.candidateUrlOf, Deployment.shaOf]
  rw [if_neg (by decide), if_neg (by decide)]
  rw [if_neg (by simpa using h1), h2]
  simp

/-- Witness for C7's amended theorem at the claim's concrete URL pair. -/
theorem c7_env_url_preference_witness :
    Deployment.extractDeploymentInfo (Deployment.mkCtx (some (.vstr "https://a.vercel.app"))
        (some (.vstr "https://b.vercel.app")) (some (.vstr "Preview")) (some (.vstr "abc"))
        "top")
      = some ⟨(JsUrl.URL.mk "https" "a.vercel.app" none "" none none).serialize,
          .vstr "Preview", "abc",
          Deployment.isVercelUrl (JsUrl.URL.mk "https" "a.vercel.app" none "" none none)⟩ :=
  c7_env_url_preference "https://a.vercel.app" (some (.vstr "https://b.vercel.app"))
    (JsUrl.URL.mk "https" "a.vercel.app" none "" none none) (by decide) (by decide)

/-- C8 counterexample: with `environment_url = ""` and a valid
`target_url = "https://b.vercel.app"` on an otherwise-valid event, the code
returns `null`, but with the empty `environment_url` field absent it returns
a result — so the empty string is not treated "exactly as if that field were
absent". -/
theorem c8_counterexample :
    Deployment.extractDeploymentInfo (Deployment.mkCtx (some (.vstr ""))
        (some (.vstr "https://b.vercel.app")) (some (.vstr "Preview")) (some (.vstr "abc"))
        "top") = none
    ∧ Deployment.extractDeploymentInfo (Deployment.mkCtx none
        (some (.vstr "https://b.vercel.app")) (some (.vstr "Preview")) (some (.vstr "abc"))
        "top") = some ⟨"https://b.vercel.app/", .vstr "Preview", "abc", true⟩ :=
  ⟨by decide, by decide⟩

/-- C8 (amended): an empty-string selected candidate URL always leads to
rejection; and when the empty string came from `target_url` (with
`environment_url` not present as a string), the result is `null` exactly as
with `target_url` absent.  (An empty-string `environment_url`, however, still
takes precedence over `target_url`, so there rejection can differ from the
field-absent behaviour — see the counterexample.) -/
theorem c8_empty_url_rejection (ctx : Deployment.GithubContext)
    (ds : Deployment.DeploymentStatusPayload) (h : ctx.deployment_status = some ds) :
    (Deployment.candidateUrlOf ds = some (.vstr "") →
        Deployment.extractDeploymentInfo ctx = none)
    ∧ (ds.target_url = some (.vstr "") →
        (∀ s, ds.environment_url ≠ some (.vstr s)) →
        Deployment.extractDeploymentInfo ctx = none
        ∧ Deployment.extractDeploymentInfo
            { ctx with deployment_status := some { ds with target_url := none } } = none) := by
  have reject : ∀ (c : Deployment.GithubContext) (d : Deployment.DeploymentStatusPayload),
      c.deployment_status = some d → Deployment.candidateUrlOf d = some (.vstr "") →
      Deployment.extractDeploymentInfo c = none := by
    intro c d hd hc
    unfold Deployment.extractDeploymentInfo
    simp [hd, hc]
  refine ⟨reject ctx ds h, fun htu henv => ?_⟩
  have hcand : Deployment.candidateUrlOf ds = some (.vstr "") := by
    unfold Deployment.candidateUrlOf
    cases hev : ds.environment_url with
    | none => simpa [hev] using htu
    | some v =>
      cases v with
      | vstr s => exact absurd hev (henv s)
      | vnum n => simpa [hev] using htu
      | vbool b => simpa [hev] using htu
      | vnull => simpa [hev] using htu
  refine ⟨reject ctx ds h hcand, ?_⟩
  set ds2 : Deployment.DeploymentStatusPayload := { ds with target_url := none } with hds2
  have hcand2 : Deployment.candidateUrlOf ds2 = none := by
    unfold Deployment.candidateUrlOf
    cases hev : ds2.environment_url with
    | none => simp [hds2]
    | some v =>
      cases v with
      | vstr s => exact absurd (by simpa [hds2] using hev) (henv s)
      | vnum n => simp [hds2]
      | vbool b => simp [hds2]
      | vnull => simp [hds2]
  unfold Deployment.extractDeploymentInfo
  simp [h, hcand2]

/-- Witness for C8's amended theorem at a concrete event whose `target_url`
is the empty string. -/
theorem c8_empty_url_rejection_witness :
    (Deployment.candidateUrlOf ⟨some (.vstr "success"), some (.vstr ""), none, none⟩
          = some (.vstr "") →
        Deployment.extractDeploymentInfo
          (Deployment.mkCtx none (some (.vstr "")) none none "top") = none)
    ∧ ((⟨some (.vstr "success"), some (.vstr ""), none, none⟩ :
          Deployment.DeploymentStatusPayload).target_url = some (.vstr "") →
        (∀ s, (⟨some (.vstr "success"), some (.vstr ""), none, none⟩ :
            Deployment.DeploymentStatusPayload).environment_url ≠ some (.vstr s)) →
        Deployment.extractDeploymentInfo
            (Deployment.mkCtx none (some (.vstr "")) none none "top") = none
        ∧ Deployment.extractDeploymentInfo
            { Deployment.mkCtx none (some (.vstr "")) none none "top" with
              deployment_status := some
                { (⟨some (.vstr "success"), some (.vstr ""), none, none⟩ :
                    Deployment.DeploymentStatusPayload) with target_url := none } } = none) :=
  c8_empty_url_rejection (Deployment.mkCtx none (some (.vstr "")) none none "top")
    ⟨some (.vstr "success"), some (.vstr ""), none, none⟩ rfl

/-- C9 counterexample: with the nested deployment `sha` present as the empty
string (a string value), the output `sha` is the top-level `context.sha`
(`"topsha"`), not the nested value — refuting "the output sha equals the
nested deployment object's sha when that value is present". -/
theorem c9_counterexample :
    (Deployment.extractDeploymentInfo (Deployment.mkCtx none
        (some (.vstr "https://b.vercel.app")) (some (.vstr "Preview")) (some (.vstr ""))
        "topsha")).map Deployment.DeploymentInfo.sha = some "topsha"
    ∧ ((Deployment.mkCtx none (some (.vstr "https://b.vercel.app"))
        (some (.vstr "Preview")) (some (.vstr "")) "topsha").deployment.bind
          Deployment.DeploymentPayload.sha) = some (.vstr "")
    ∧ ("topsha" : String) ≠ "" :=
  ⟨by decide, by decide, by decide⟩

/-- C9 (amended): for every accepted event, the output `sha` equals the
nested deployment object's `sha` when that value is present, a string, and
nonempty, and equals the event's top-level `context.sha` exactly when the
nested value is missing, not a string, or the empty string (the code guards
with JS truthiness `deployment?.sha && typeof deployment.sha === 'string'`). -/
theorem c9_sha_resolution (ctx : Deployment.GithubContext)
    (info : Deployment.DeploymentInfo)
    (h : Deployment.extractDeploymentInfo ctx = some info) :
    (∀ d s, ctx.deployment = some d → d.sha = some (.vstr s) → s ≠ "" → info.sha = s)
    ∧ (∀ d s, ctx.deployment = some d → d.sha = some (.vstr s) → s = "" →
        info.sha = ctx.sha)
    ∧ (ctx.deployment = none → info.sha = ctx.sha)
    ∧ (∀ d, ctx.deployment = some d → (∀ s, d.sha ≠ some (.vstr s)) →
        info.sha = ctx.sha) := by
  obtain ⟨ds, u, p, hds, hcu, hne, hp, hinfo⟩ := Deployment.extract_eq_some_inv ctx info h
  have hsha : info.sha = Deployment.shaOf ctx := by rw [hinfo]
  refine ⟨?_, ?_, ?_, ?_⟩
  · intro d s hd hs hne2
    rw [hsha]; unfold Deployment.shaOf; simp [hd, hs, hne2]
  · intro d s hd hs he
    simp [hsha, Deployment.shaOf, hd, hs, he]
  · intro hd
    rw [hsha]; unfold Deployment.shaOf; simp [hd]
  · intro d hd hns
    rw [hsha]; unfold Deployment.shaOf
    simp only [hd]

/-- Witness for C9's amended theorem at a concrete accepted event with a
nonempty nested sha. -/
theorem c9_sha_resolution_witness :
    (∀ d s, (Deployment.mkCtx none (some (.vstr "https://b.vercel.app"))
          (some (.vstr "Preview")) (some (.vstr "abc")) "topsha").deployment = some d →
        d.sha = some (.vstr s) → s ≠ "" →
        (⟨"https://b.vercel.app/", .vstr "Preview", "abc", true⟩ :
          Deployment.DeploymentInfo).sha = s)
    ∧ (∀ d s, (Deployment.mkCtx none (some (.vstr "https://b.vercel.app"))
          (some (.vstr "Preview")) (some (.vstr "abc")) "topsha").deployment = some d →
        d.sha = some (.vstr s) → s = "" →
        (⟨"https://b.vercel.app/", .vstr "Preview", "abc", true⟩ :
          Deployment.DeploymentInfo).sha
          = (Deployment.mkCtx none (some (.vstr "https://b.vercel.app"))
              (some (.vstr "Preview")) (some (.vstr "abc")) "topsha").sha)
    ∧ ((Deployment.mkCtx none (some (.vstr "https://b.vercel.app"))
          (some (.vstr "Preview")) (some (.vstr "abc")) "topsha").deployment = none →
        (⟨"https://b.vercel.app/", .vstr "Preview", "abc", true⟩ :
          Deployment.DeploymentInfo).sha
          = (Deployment.mkCtx none (some (.vstr "https://b.vercel.app"))
              (some (.vstr "Preview")) (some (.vstr "abc")) "topsha").sha)
    ∧ (∀ d, (Deployment.mkCtx none (some (.vstr "https://b.vercel.app"))
          (some (.vstr "Preview")) (some (.vstr "abc")) "topsha").deployment = some d →
        (∀ s, d.sha ≠ some (.vstr s)) →
        (⟨"https://b.vercel.app/", .vstr "Preview", "abc", true⟩ :
          Deployment.DeploymentInfo).sha
          = (Deployment.mkCtx none (some (.vstr "https://b.vercel.app"))
              (some (.vstr "Preview")) (some (.vstr "abc")) "topsha").sha) :=
  c9_sha_resolution (Deployment.mkCtx none (some (.vstr "https://b.vercel.app"))
      (some (.vstr "Preview")) (some (.vstr "abc")) "topsha")
    ⟨"https://b.vercel.app/", .vstr "Preview", "abc", true⟩ (by decide)

/-- C10 counterexample: with the `environment` field present but `null` on an
otherwise-valid event, the returned environment is the default `"unknown"`,
so the `'unknown'` default does not apply only when the field is absent. -/
theorem c10_counterexample :
    ((Deployment.mkCtx none (some (.vstr "https://b.vercel.app")) (some .vnull)
        (some (.vstr "abc")) "top").deployment_status.bind
          Deployment.DeploymentStatusPayload.environment) = some .vnull
    ∧ (Deployment.extractDeploymentInfo (Deployment.mkCtx none
        (some (.vstr "https://b.vercel.app")) (some .vnull) (some (.vstr "abc"))
        "top")).map Deployment.DeploymentInfo.environment = some (.vstr "unknown") :=
  ⟨by decide, by decide⟩

/-- C10 (amended): on an otherwise-valid successful non-production event, an
empty-string `environment` is not rejected (the empty string is not
`"production"`) and is returned as the empty string; the `"unknown"` default
applies exactly when the field is absent or `null`; and any provided
non-production environment string is preserved in its original case. -/
theorem c10_environment_preservation (s : String) (hS : jsToLower s ≠ "production") :
    (Deployment.extractDeploymentInfo (Deployment.mkCtx none
        (some (.vstr "https://b.vercel.app")) (some (.vstr "")) (some (.vstr "abc"))
        "top")).map Deployment.DeploymentInfo.environment = some (.vstr "")
    ∧ (Deployment.extractDeploymentInfo (Deployment.mkCtx none
        (some (.vstr "https://b.vercel.app")) none (some (.vstr "abc"))
        "top")).map Deployment.DeploymentInfo.environment = some (.vstr "unknown")
    ∧ (Deployment.extractDeploymentInfo (Deployment.mkCtx none
        (some (.vstr "https://b.vercel.app")) (some .vnull) (some (.vstr "abc"))
        "top")).map Deployment.DeploymentInfo.environment = some (.vstr "unknown")
    ∧ (Deployment.extractDeploymentInfo (Deployment.mkCtx none
        (some (.vstr "https://b.vercel.app")) (some (.vstr s)) (some (.vstr "abc"))
        "top")).map Deployment.DeploymentInfo.environment = some (.vstr s) := by
  refine ⟨by decide, by decide, by decide, ?_⟩
  unfold Deployment.extractDeploymentInfo Deployment.mkCtx
  rw [if_neg (by simp)]
  simp only [Deployment.stateOf, Deployment.environmentOf, Deployment.environmentLowerOf,
    Deployment.candidateUrlOf, Deployment.shaOf]
  rw [if_neg (by decide), if_neg (by simpa using hS)]
  rw [if_neg (show ¬("https://b.vercel.app" = "") by decide)]
  have hpu : Deployment.parseUrl "https://b.vercel.app"
      = some ⟨"https", "b.vercel.app", none, "", none, none⟩ := by decide
  rw [hpu]
  simp

/-- Witness for C10's amended theorem at the non-production environment
string "Preview". -/
theorem c10_environment_preservation_witness :
    (Deployment.extractDeploymentInfo (Deployment.mkCtx none
        (some (.vstr "https://b.vercel.app")) (some (.vstr "")) (some (.vstr "abc"))
        "top")).map Deployment.DeploymentInfo.environment = some (.vstr "")
    ∧ (Deployment.extractDeploymentInfo (Deployment.mkCtx none
        (some (.vstr "https://b.vercel.app")) none (some (.vstr "abc"))
        "top")).map Deployment.DeploymentInfo.environment = some (.vstr "unknown")
    ∧ (Deployment.extractDeploymentInfo (Deployment.mkCtx none
        (some (.vstr "https://b.vercel.app")) (some .vnull) (some (.vstr "abc"))
        "top")).map Deployment.DeploymentInfo.environment = some (.vstr "unknown")
    ∧ (Deployment.extractDeploymentInfo (Deployment.mkCtx none
        (some (.vstr "https://b.vercel.app")) (some (.vstr "Preview")) (some (.vstr "abc"))
        "top")).map Deployment.DeploymentInfo.environment = some (.vstr "Preview") :=
  c10_environment_preservation "Preview" (by decide)

/-- C6: whenever `extractDeploymentInfo` returns a `DeploymentInfo`, its
`url` field is a syntactically valid absolute URL whose scheme is `http` or
`https`: `parseUrl` (the Classifier's own validator) accepts it again. -/
theorem c6_url_invariant (ctx : Deployment.GithubContext) (info : Deployment.DeploymentInfo)
    (h : Deployment.extractDeploymentInfo ctx = some info) :
    ∃ p, Deployment.parseUrl info.url = some p
      ∧ (p.scheme = "http" ∨ p.scheme = "https") := by
  obtain ⟨ds, u, p0, hds, hcu, hne, hp0, hinfo⟩ := Deployment.extract_eq_some_inv ctx info h
  have hjs : JsUrl.jsNewURL u = some p0 ∧ (p0.scheme = "http" ∨ p0.scheme = "https") := by
    unfold Deployment.parseUrl at hp0
    split at hp0
    · exact absurd hp0 (by simp)
    · rename_i parsed hparsed
      split at hp0
      · exact absurd hp0 (by simp)
      · rename_i hcond
        have := Option.some.inj hp0
        subst this
        refine ⟨hparsed, ?_⟩
        by_cases h1 : parsed.scheme = "http"
        · exact Or.inl h1
        · right
          by_contra h2
          exact hcond ⟨h1, h2⟩
  have hsp : JsUrl.SPECIAL_SCHEMES.contains p0.scheme = true := by
    rcases hjs.2 with h' | h' <;> rw [h'] <;> decide
  obtain ⟨hh, hH, hport, hpath⟩ := JsUrl.jsNewURL_facts u p0 hjs.1 hsp
  obtain ⟨p', hp', hsch⟩ := JsUrl.jsNewURL_serialize_some p0 hjs.2 hh hH hport hpath
  have hurl : info.url = p0.serialize := by rw [hinfo]
  rw [hurl]
  refine ⟨p', ?_, by rw [hsch]; exact hjs.2⟩
  unfold Deployment.parseUrl
  rw [hp']
  rcases hjs.2 with h' | h' <;> simp [hsch, h']

/-- Witness for C6 at a concrete accepted event. -/
theorem c6_url_invariant_witness :
    ∃ p, Deployment.parseUrl ((⟨"https://b.vercel.app/", .vstr "Preview", "abc", true⟩ :
        Deployment.DeploymentInfo).url) = some p
      ∧ (p.scheme = "http" ∨ p.scheme = "https") :=
  c6_url_invariant (Deployment.mkCtx none (some (.vstr "https://b.vercel.app"))
      (some (.vstr "Preview")) (some (.vstr "abc")) "top")
    ⟨"https://b.vercel.app/", .vstr "Preview", "abc", true⟩ (by decide)
